import Mathlib

/-!
# Verification of the GasGuardian recruitment-bot candidate pipeline

Shallow embedding of the candidate lifecycle logic of the GasGuardian
Telegram userbot: the relevance scanner (`relevance.ts`), the discovery
enqueue path (`channel_discovery.ts` / `queue.ts`), and the Redis-backed
candidate queue, retry schedule and engagement-state tracker of
`gasguardian-userbot.ts` (`dequeueCandidate`, `scheduleCandidateRetry`,
`clearCandidateFailures`, `canReplyGroup`, `recordGroupReply`,
`hasLeftGroup`, `recordLeftGroup`, `processCandidateQueue`).

Redis data structures are modelled explicitly: lists as `List String`,
sets as duplicate-free `List` membership, hashes and sorted sets as
association lists, TTL keys as absolute expiry timestamps compared with
the current time (milliseconds since epoch, as `Date.now()` returns).
Network collaborators (entity resolution, joining, history fetch, AI
generation, message sending) are oracles supplied in an `Env` record;
the pipeline branches only on the oracle results, mirroring the source.
-/

set_option maxRecDepth 4000

namespace GasGuardian

/-! ## JavaScript string primitives -/

/-- JS `String.prototype.toLowerCase`, modelled as ASCII lowercasing
(`Char.toLower` lowers `A`–`Z`; both relevance functions lower both
sides with the same function, so their agreement is unaffected). -/
def jsToLower (s : String) : String := ⟨s.data.map Char.toLower⟩

/-- Predicate `leadsWith pat l` : `pat` is an initial segment of `l`. -/
def leadsWith : List Char → List Char → Bool
  | [], _ => true
  | _ :: _, [] => false
  | a :: as, b :: bs => a == b && leadsWith as bs

/-- Predicate `occursIn pat l` : `pat` occurs contiguously somewhere in `l`. -/
def occursIn (pat : List Char) : List Char → Bool
  | [] => leadsWith pat []
  | b :: bs => leadsWith pat (b :: bs) || occursIn pat bs

/-- JS `haystack.includes(needle)` : substring containment. -/
def strIncludes (haystack needle : String) : Bool :=
  occursIn needle.data haystack.data

/-! ## relevance.ts -/

/-- Keyword list `RELEVANT_KEYWORDS` from `relevance.ts`. -/
def RELEVANT_KEYWORDS : List String :=
  [ "gas", "ethereum", "eth", "polygon", "gas fees", "defi", "transaction",
    "fee", "arbitrum", "optimism", "l2", "zksync", "starknet",
    "gas optimization", "eth gas tracker", "cheap gas", "gas price",
    "gas monitor", "gas analyzer",
    "газ", "газовые комиссии", "газ эфириум", "экономия газа",
    "низкие комиссии", "дефи", "эфириум", "газ трекер", "газ прайс",
    "дешевый газ", "газ монитор", "алгоритм оптимизации" ]

/-- The per-message relevance test shared by both scans: some keyword is a
case-insensitive substring of the message text. -/
def isRelevantText (text : String) : Bool :=
  RELEVANT_KEYWORDS.any fun kw => strIncludes (jsToLower text) (jsToLower kw)

/-- Function `containsRelevantKeyword` from `relevance.ts`: lowercases every
message, then returns `true` as soon as some message contains some
keyword. -/
def containsRelevantKeyword (messages : List String) : Bool :=
  let lowerMsgs := messages.map jsToLower
  lowerMsgs.any fun msg =>
    RELEVANT_KEYWORDS.any fun kw => strIncludes msg (jsToLower kw)

/-- Function `pickMostRelevantMessage` from `relevance.ts`: returns the first
message (in fetched order) whose lowercased text contains some keyword,
or `null`. -/
def pickMostRelevantMessage (messages : List String) : Option String :=
  messages.find? fun text =>
    RELEVANT_KEYWORDS.any fun kw => strIncludes (jsToLower text) (jsToLower kw)

theorem containsRelevantKeyword_eq_any (messages : List String) :
    containsRelevantKeyword messages = messages.any isRelevantText := by
  simp only [containsRelevantKeyword, isRelevantText, List.any_map]
  rfl

theorem pickMostRelevantMessage_eq_find (messages : List String) :
    pickMostRelevantMessage messages = messages.find? isRelevantText := rfl

theorem find_split {α} {p : α → Bool} :
    ∀ (l : List α) (m : α), l.find? p = some m →
      ∃ l1 l2, l = l1 ++ m :: l2 ∧ ∀ x ∈ l1, p x = false := by
  intro l
  induction l with
  | nil => intro m h; simp [List.find?] at h
  | cons a as ih =>
    intro m h
    by_cases hpa : p a = true
    · rw [List.find?_cons_of_pos _ hpa, Option.some.injEq] at h
      exact ⟨[], as, by simp [h], by simp⟩
    · rw [List.find?_cons_of_neg _ (by simpa using hpa)] at h
      obtain ⟨l1, l2, rfl, hall⟩ := ih m h
      refine ⟨a :: l1, l2, rfl, ?_⟩
      intro x hx
      rcases List.mem_cons.mp hx with rfl | hx
      · simpa using hpa
      · exact hall x hx

/-- C10: `containsRelevantKeyword` returns `true` iff
`pickMostRelevantMessage` returns a non-null message, so the non-null
assertion `pickMostRelevantMessage(recentTexts)!` in
`processCandidateQueue`, executed only after `containsRelevantKeyword`
returned `true`, never fails; moreover the picked message is the first
message in fetched order containing a relevance keyword
(case-insensitive substring match). -/
theorem claim_C10_pick_agrees_with_contains (messages : List String) :
    (containsRelevantKeyword messages = true ↔
      (pickMostRelevantMessage messages).isSome = true) ∧
    (∀ m, pickMostRelevantMessage messages = some m →
      isRelevantText m = true ∧
      ∃ l1 l2, messages = l1 ++ m :: l2 ∧ ∀ x ∈ l1, isRelevantText x = false) := by
  constructor
  · rw [containsRelevantKeyword_eq_any, pickMostRelevantMessage_eq_find]
    simp [List.any_eq_true, List.find?_isSome]
  · intro m hm
    rw [pickMostRelevantMessage_eq_find] at hm
    exact ⟨List.find?_some hm, find_split messages m hm⟩

/-- Witness for C10 at a concrete message list. -/
theorem claim_C10_pick_agrees_with_contains_witness :
    pickMostRelevantMessage ["hello there", "ETH GAS fees are wild"] =
      some "ETH GAS fees are wild" ∧
    (isRelevantText "ETH GAS fees are wild" = true ∧
      ∃ l1 l2, ["hello there", "ETH GAS fees are wild"] =
          l1 ++ "ETH GAS fees are wild" :: l2 ∧
        ∀ x ∈ l1, isRelevantText x = false) :=
  ⟨by decide,
   (claim_C10_pick_agrees_with_contains
      ["hello there", "ETH GAS fees are wild"]).2
      "ETH GAS fees are wild" (by decide)⟩

/-! ## Redis set primitive -/

/-- Redis `SADD` on a set modelled as a membership list: add if absent. -/
def saddStr (s : List String) (x : String) : List String :=
  if x ∈ s then s else x :: s

/-! ## queue.ts -/

/-- The two Redis sets touched by `queue.ts`. -/
structure QStore where
  processedChannels : List String
  pendingChannels : List String
  deriving DecidableEq

/-- Function `enqueueChannel` from `queue.ts`: `SISMEMBER processed_channels`,
then `SADD pending_channels` only when the channel was not yet
processed. -/
def enqueueChannel (st : QStore) (channel : String) : QStore :=
  if channel ∈ st.processedChannels then st
  else { st with pendingChannels := saddStr st.pendingChannels channel }

/-! ## channel_discovery.ts -/

/-- Keyword list `RECRUITMENT_KEYWORDS` from `channel_discovery.ts`. -/
def RECRUITMENT_KEYWORDS : List String :=
  [ "gas fees", "cheap gas", "gas optimization", "defi", "nft", "airdrop",
    "layer 2", "l2",
    "газовые комиссии", "дешевый газ", "оптимизация газа", "дефи", "нфт",
    "эйрдроп", "слой 2", "л2" ]

def dedupFirstAux (seen : List String) : List String → List String
  | [] => []
  | x :: xs =>
    if x ∈ seen then dedupFirstAux seen xs
    else x :: dedupFirstAux (x :: seen) xs

/-- JS `Array.from(new Set(l))`: deduplication keeping first occurrences. -/
def dedupFirst (l : List String) : List String := dedupFirstAux [] l

/-- Function `discoverChannels` from `channel_discovery.ts`: merges the static
keyword list with the dynamic keywords, then for each keyword enqueues
every handle the searcher returns via `enqueueChannel`. The searcher and
the dynamic-keyword fetch are network oracles passed as arguments. -/
def discoverChannels (search : String → List String)
    (dynamic : List String) (keywords : List String) (st : QStore) : QStore :=
  let allKeywords := dedupFirst (keywords ++ dynamic)
  allKeywords.foldl (fun acc kw => (search kw).foldl enqueueChannel acc) st

theorem mem_dedupFirstAux (c : String) :
    ∀ (l seen : List String), c ∈ dedupFirstAux seen l ↔ c ∈ l ∧ c ∉ seen := by
  intro l
  induction l with
  | nil => intro seen; simp [dedupFirstAux]
  | cons x xs ih =>
    intro seen
    by_cases hx : x ∈ seen
    · rw [dedupFirstAux, if_pos hx, ih]
      constructor
      · rintro ⟨h1, h2⟩; exact ⟨List.mem_cons_of_mem _ h1, h2⟩
      · rintro ⟨h1, h2⟩
        rcases List.mem_cons.mp h1 with rfl | h1
        · exact absurd hx h2
        · exact ⟨h1, h2⟩
    · rw [dedupFirstAux, if_neg hx]
      constructor
      · intro h
        rcases List.mem_cons.mp h with rfl | h
        · exact ⟨List.mem_cons_self _ _, hx⟩
        · have := (ih (x :: seen)).mp h
          exact ⟨List.mem_cons_of_mem _ this.1,
                 fun hc => this.2 (List.mem_cons_of_mem _ hc)⟩
      · rintro ⟨h1, h2⟩
        rcases List.mem_cons.mp h1 with rfl | h1
        · exact List.mem_cons_self _ _
        · by_cases hcx : c = x
          · subst hcx; exact List.mem_cons_self _ _
          · exact List.mem_cons_of_mem _
              ((ih (x :: seen)).mpr
                ⟨h1, fun hc => by
                  rcases List.mem_cons.mp hc with h | h
                  · exact hcx h
                  · exact h2 h⟩)

theorem mem_dedupFirst (c : String) (l : List String) :
    c ∈ dedupFirst l ↔ c ∈ l := by
  rw [dedupFirst, mem_dedupFirstAux]; simp

theorem enqueueChannel_processed (st : QStore) (ch : String) :
    (enqueueChannel st ch).processedChannels = st.processedChannels := by
  rw [enqueueChannel]; split <;> rfl

theorem enqueueChannel_pending_mem (st : QStore) (ch c : String) :
    c ∈ (enqueueChannel st ch).pendingChannels ↔
      c ∈ st.pendingChannels ∨ (c = ch ∧ ch ∉ st.processedChannels) := by
  rw [enqueueChannel]
  split
  · rename_i h; simp [h]
  · rename_i h
    simp only [saddStr]
    split
    · rename_i h2
      constructor
      · intro hc; exact Or.inl hc
      · rintro (hc | ⟨rfl, _⟩) <;> [exact hc; exact h2]
    · simp only [List.mem_cons]
      constructor
      · rintro (rfl | hc)
        · exact Or.inr ⟨rfl, h⟩
        · exact Or.inl hc
      · rintro (hc | ⟨rfl, _⟩)
        · exact Or.inr hc
        · exact Or.inl rfl

theorem foldl_enqueue_processed (chans : List String) :
    ∀ st : QStore,
      (chans.foldl enqueueChannel st).processedChannels =
        st.processedChannels := by
  induction chans with
  | nil => intro st; rfl
  | cons ch chans ih =>
    intro st
    rw [List.foldl_cons, ih, enqueueChannel_processed]

theorem foldl_enqueue_pending_mem (chans : List String) :
    ∀ (st : QStore) (c : String),
      c ∈ (chans.foldl enqueueChannel st).pendingChannels ↔
        c ∈ st.pendingChannels ∨
          (c ∈ chans ∧ c ∉ st.processedChannels) := by
  induction chans with
  | nil => intro st c; simp
  | cons ch chans ih =>
    intro st c
    rw [List.foldl_cons, ih, enqueueChannel_pending_mem,
        enqueueChannel_processed]
    constructor
    · rintro ((hc | ⟨rfl, hp⟩) | ⟨h1, h2⟩)
      · exact Or.inl hc
      · exact Or.inr ⟨List.mem_cons_self _ _, hp⟩
      · exact Or.inr ⟨List.mem_cons_of_mem _ h1, h2⟩
    · rintro (hc | ⟨h1, h2⟩)
      · exact Or.inl (Or.inl hc)
      · rcases List.mem_cons.mp h1 with rfl | h1
        · exact Or.inl (Or.inr ⟨rfl, h2⟩)
        · exact Or.inr ⟨h1, h2⟩

theorem foldl_keywords_processed (search : String → List String)
    (kws : List String) :
    ∀ st : QStore,
      ((kws.foldl (fun acc kw => (search kw).foldl enqueueChannel acc)
          st).processedChannels) = st.processedChannels := by
  induction kws with
  | nil => intro st; rfl
  | cons kw kws ih =>
    intro st
    rw [List.foldl_cons, ih, foldl_enqueue_processed]

theorem foldl_keywords_pending_mem (search : String → List String)
    (kws : List String) :
    ∀ (st : QStore) (c : String),
      c ∈ ((kws.foldl (fun acc kw => (search kw).foldl enqueueChannel acc)
            st).pendingChannels) ↔
        c ∈ st.pendingChannels ∨
          ∃ kw, kw ∈ kws ∧ c ∈ search kw ∧ c ∉ st.processedChannels := by
  induction kws with
  | nil => intro st c; simp
  | cons kw kws ih =>
    intro st c
    rw [List.foldl_cons, ih, foldl_enqueue_pending_mem,
        foldl_enqueue_processed]
    constructor
    · rintro ((hc | ⟨h1, h2⟩) | ⟨kw', h1, h2, h3⟩)
      · exact Or.inl hc
      · exact Or.inr ⟨kw, List.mem_cons_self _ _, h1, h2⟩
      · exact Or.inr ⟨kw', List.mem_cons_of_mem _ h1, h2, h3⟩
    · rintro (hc | ⟨kw', h1, h2, h3⟩)
      · exact Or.inl (Or.inl hc)
      · rcases List.mem_cons.mp h1 with rfl | h1
        · exact Or.inl (Or.inr ⟨h2, h3⟩)
        · exact Or.inr ⟨kw', h1, h2, h3⟩

/-- C9 counterexample: with a searcher returning one unprocessed handle
and an initially empty store, a discovery pass changes the store — it
adds the handle to `pending_channels`, refuting "the store contents are
unchanged by a discovery pass". -/
theorem claim_C9_counterexample :
    discoverChannels (fun _ => ["@gasfans"]) [] RECRUITMENT_KEYWORDS
        ⟨[], []⟩ ≠ (⟨[], []⟩ : QStore) := by
  decide

/-- C9 (amended): `discoverChannels` itself enqueues every discovered
handle via `enqueueChannel`: it never touches `processed_channels`, and
after a pass a handle is pending iff it was already pending or some
merged keyword's search returned it and it was not in
`processed_channels` — so the store is mutated whenever an unprocessed
new handle is discovered. -/
theorem claim_C9_discover_enqueues (search : String → List String)
    (dynamic keywords : List String) (st : QStore) (c : String) :
    (discoverChannels search dynamic keywords st).processedChannels =
      st.processedChannels ∧
    (c ∈ (discoverChannels search dynamic keywords st).pendingChannels ↔
      c ∈ st.pendingChannels ∨
        ∃ kw, kw ∈ keywords ++ dynamic ∧ c ∈ search kw ∧
          c ∉ st.processedChannels) := by
  constructor
  · rw [discoverChannels]
    exact foldl_keywords_processed search _ st
  · rw [discoverChannels]
    rw [foldl_keywords_pending_mem search _ st c]
    constructor
    · rintro (hc | ⟨kw, h1, h2, h3⟩)
      · exact Or.inl hc
      · exact Or.inr ⟨kw, (mem_dedupFirst kw _).mp h1, h2, h3⟩
    · rintro (hc | ⟨kw, h1, h2, h3⟩)
      · exact Or.inl hc
      · exact Or.inr ⟨kw, (mem_dedupFirst kw _).mpr h1, h2, h3⟩

/-! ## Main-queue enqueue (scrapeAndEnqueueCandidates, gasguardian-userbot.ts) -/

/-- The per-handle enqueue step of `scrapeAndEnqueueCandidates`:
`LRANGE candidatesToJoin 0 -1`, then `RPUSH` only when the handle is not
already in the queue contents. -/
def enqueueCandidate (queue : List String) (uname : String) : List String :=
  if uname ∈ queue then queue else queue ++ [uname]

/-- A sequence of main-queue enqueues, in order. -/
def enqueueAll (queue : List String) (unames : List String) : List String :=
  unames.foldl enqueueCandidate queue

theorem enqueueCandidate_nodup {queue : List String} (uname : String)
    (h : queue.Nodup) : (enqueueCandidate queue uname).Nodup := by
  rw [enqueueCandidate]
  split
  · exact h
  · rename_i hm
    simp [List.nodup_append, h, hm]

theorem enqueueAll_nodup {queue : List String} (unames : List String)
    (h : queue.Nodup) : (enqueueAll queue unames).Nodup := by
  induction unames generalizing queue with
  | nil => exact h
  | cons u us ih =>
    rw [enqueueAll, List.foldl_cons]
    exact ih (enqueueCandidate_nodup u h)

/-- C3: a handle already present in the main candidate queue is not
appended again (the enqueue is a no-op), and any sequence of enqueues
starting from a duplicate-free queue keeps the queue duplicate-free, so
at any time the queue holds at most one entry for each handle. -/
theorem claim_C3_enqueue_dedup (queue : List String) (uname : String)
    (unames : List String) (hq : queue.Nodup) (hu : uname ∈ queue) :
    enqueueCandidate queue uname = queue ∧
    (enqueueAll queue unames).Nodup ∧
    ∀ x, (enqueueAll queue unames).count x ≤ 1 := by
  refine ⟨by rw [enqueueCandidate, if_pos hu], enqueueAll_nodup unames hq, ?_⟩
  intro x
  exact List.nodup_iff_count_le_one.mp (enqueueAll_nodup unames hq) x

/-- Witness for C3: `@alpha` enqueued twice in a row onto a queue already
holding it stays unique. -/
theorem claim_C3_enqueue_dedup_witness :
    enqueueCandidate ["@alpha"] "@alpha" = ["@alpha"] ∧
    (enqueueAll ["@alpha"] ["@alpha", "@beta", "@alpha"]).Nodup ∧
    (enqueueAll ["@alpha"] ["@alpha", "@beta", "@alpha"]).count "@alpha" ≤ 1 := by
  obtain ⟨h1, h2, h3⟩ :=
    claim_C3_enqueue_dedup ["@alpha"] "@alpha" ["@alpha", "@beta", "@alpha"]
      (by decide) (by decide)
  exact ⟨h1, h2, h3 "@alpha"⟩

/-! ## Daily reply cooldown (canReplyGroup / recordGroupReply)

The Redis path of the tracker: `repliedGroups:<YYYY-MM-DD>` is a per-UTC-day
set; `toISOString().slice(0,10)` buckets `Date.now()` into UTC calendar
days, modelled as `now / msPerDay`. Redis TTL expiry is modelled by storing
the absolute expiry timestamp and treating an expired key as absent. -/

def msPerDay : Nat := 86400000

def dayBucket (now : Nat) : Nat := now / msPerDay

/-- One `repliedGroups:<date>` Redis set together with its TTL expiry
(absolute milliseconds). -/
structure DayEntry where
  day : Nat
  expiry : Nat
  members : List Nat
  deriving DecidableEq

/-- The collection of `repliedGroups:*` keys. -/
structure ReplyStore where
  entries : List DayEntry
  deriving DecidableEq

def lookupDay (rs : ReplyStore) (d : Nat) : Option DayEntry :=
  rs.entries.find? fun e => e.day == d

/-- Function `canReplyGroup` from `gasguardian-userbot.ts` (Redis path):
`SISMEMBER repliedGroups:<today> groupId` is `0`, i.e. the group is not
in the live set for the current day bucket. -/
def canReplyGroup (rs : ReplyStore) (now : Nat) (groupId : Nat) : Bool :=
  match lookupDay rs (dayBucket now) with
  | some e => if now < e.expiry then (if groupId ∈ e.members then false else true) else true
  | none => true

def setDay (rs : ReplyStore) (e : DayEntry) : ReplyStore :=
  if (lookupDay rs e.day).isSome then
    ⟨rs.entries.map fun x => if x.day == e.day then e else x⟩
  else
    ⟨rs.entries ++ [e]⟩

/-- Function `recordGroupReply` from `gasguardian-userbot.ts` (Redis path):
`SADD repliedGroups:<today> groupId` then `EXPIRE` with 25 hours. An
expired key receives a fresh singleton set, as in Redis. -/
def recordGroupReply (rs : ReplyStore) (now : Nat) (groupId : Nat) : ReplyStore :=
  let d := dayBucket now
  let newMembers :=
    match lookupDay rs d with
    | some e =>
      if now < e.expiry then
        (if groupId ∈ e.members then e.members else groupId :: e.members)
      else [groupId]
    | none => [groupId]
  setDay rs ⟨d, now + 25 * 60 * 60 * 1000, newMembers⟩

/-- Every live `repliedGroups` key was written during its own day, so its
expiry (write time + 25 h) lies beyond the end of that day. -/
def ReplyStoreWF (rs : ReplyStore) : Prop :=
  ∀ e ∈ rs.entries, (e.day + 1) * msPerDay ≤ e.expiry

instance (rs : ReplyStore) : Decidable (ReplyStoreWF rs) := by
  unfold ReplyStoreWF; infer_instance

theorem lookupDay_day {rs : ReplyStore} {d : Nat} {e : DayEntry}
    (h : lookupDay rs d = some e) : e.day = d := by
  have := List.find?_some h
  simpa using this

theorem lookupDay_mem {rs : ReplyStore} {d : Nat} {e : DayEntry}
    (h : lookupDay rs d = some e) : e ∈ rs.entries :=
  List.mem_of_find?_eq_some h

theorem find?_map_replace (d : Nat) (e : DayEntry) (he : e.day = d) :
    ∀ l : List DayEntry, (l.find? fun x => x.day == d).isSome →
      ((l.map fun x => if x.day == e.day then e else x).find?
        fun x => x.day == d) = some e := by
  intro l
  induction l with
  | nil => intro h; simp [List.find?] at h
  | cons x xs ih =>
    intro h
    by_cases hx : x.day = d
    · rw [List.map_cons, if_pos (by simp [he, hx])]
      rw [List.find?_cons_of_pos _ (by simp [he])]
    · rw [List.map_cons, if_neg (by simp [he, hx])]
      rw [List.find?_cons_of_neg _ (by simp [hx])]
      rw [List.find?_cons_of_neg _ (by simp [hx])] at h
      exact ih h

theorem lookupDay_setDay_self (rs : ReplyStore) (e : DayEntry) :
    lookupDay (setDay rs e) e.day = some e := by
  rw [setDay]
  split
  · rename_i h
    exact find?_map_replace e.day e rfl rs.entries h
  · rename_i h
    rw [lookupDay] at h ⊢
    rw [List.find?_append]
    rw [Option.not_isSome_iff_eq_none] at h
    rw [h]
    simp [List.find?]

theorem mem_setDay {rs : ReplyStore} {e x : DayEntry}
    (h : x ∈ (setDay rs e).entries) : x ∈ rs.entries ∨ x = e := by
  rw [setDay] at h
  split at h
  · obtain ⟨y, hy, hyx⟩ := List.mem_map.mp h
    by_cases hyd : y.day = e.day
    · right; rw [if_pos (by simp [hyd])] at hyx; exact hyx.symm
    · left; rw [if_neg (by simp [hyd])] at hyx; exact hyx ▸ hy
  · rcases List.mem_append.mp h with h | h
    · exact Or.inl h
    · right; simpa using h

theorem recordGroupReply_wf {rs : ReplyStore} (now groupId : Nat)
    (hwf : ReplyStoreWF rs) : ReplyStoreWF (recordGroupReply rs now groupId) := by
  intro x hx
  rcases mem_setDay hx with h | rfl
  · exact hwf x h
  · show (dayBucket now + 1) * msPerDay ≤ now + 25 * 60 * 60 * 1000
    have : dayBucket now * msPerDay ≤ now := Nat.div_mul_le_self now msPerDay
    simp only [msPerDay] at *
    omega

theorem recordGroupReply_lookup (rs : ReplyStore) (now groupId : Nat) :
    ∃ e, lookupDay (recordGroupReply rs now groupId) (dayBucket now) = some e ∧
      e.expiry = now + 25 * 60 * 60 * 1000 ∧ groupId ∈ e.members := by
  rw [recordGroupReply]
  refine ⟨_, lookupDay_setDay_self rs _, rfl, ?_⟩
  cases h : lookupDay rs (dayBucket now) with
  | none => simp
  | some e =>
    simp only
    split
    · split
      · rename_i hmem; exact hmem
      · exact List.mem_cons_self _ _
    · exact List.mem_cons_self _ _

theorem dayBucket_lt_next_day {t d : Nat} (h : dayBucket t = d) :
    t < (d + 1) * msPerDay := by
  rw [dayBucket, msPerDay] at *
  omega

/-- C8: `canReplyGroup(g)` is `true` unless `g` already has a live entry
in the current calendar-day bucket; after `recordGroupReply(g)` it is
`false` for the rest of that day; without an intervening record, two
calls in the same day bucket return the same boolean; and the day marker
is written with a 25-hour expiry. -/
theorem claim_C8_daily_cooldown (rs : ReplyStore) (t t' g : Nat)
    (hwf : ReplyStoreWF rs) (hday : dayBucket t = dayBucket t') :
    (canReplyGroup rs t g = false ↔
      ∃ e, lookupDay rs (dayBucket t) = some e ∧ t < e.expiry ∧ g ∈ e.members) ∧
    canReplyGroup (recordGroupReply rs t g) t' g = false ∧
    canReplyGroup rs t g = canReplyGroup rs t' g ∧
    (∃ e, lookupDay (recordGroupReply rs t g) (dayBucket t) = some e ∧
      e.expiry = t + 25 * 60 * 60 * 1000 ∧ g ∈ e.members) ∧
    ReplyStoreWF (recordGroupReply rs t g) := by
  have hlt : t < (dayBucket t + 1) * msPerDay := dayBucket_lt_next_day rfl
  have hlt' : t' < (dayBucket t + 1) * msPerDay := dayBucket_lt_next_day hday.symm
  refine ⟨?_, ?_, ?_, recordGroupReply_lookup rs t g, recordGroupReply_wf t g hwf⟩
  · rw [canReplyGroup]
    cases h : lookupDay rs (dayBucket t) with
    | none => simp
    | some e =>
      simp only
      split
      · rename_i hexp
        split
        · rename_i hmem
          simp only [eq_self_iff_true, true_iff]
          exact ⟨e, rfl, hexp, hmem⟩
        · rename_i hmem
          constructor
          · intro hfalse; exact absurd hfalse (by simp)
          · rintro ⟨e', he', _, hmem'⟩
            rw [Option.some.injEq] at he'
            exact absurd (he' ▸ hmem') hmem
      · rename_i hexp
        constructor
        · intro hfalse; exact absurd hfalse (by simp)
        · rintro ⟨e', he', hexp', _⟩
          rw [Option.some.injEq] at he'
          exact absurd (he' ▸ hexp') hexp
  · obtain ⟨e, he, hexp, hmem⟩ := recordGroupReply_lookup rs t g
    rw [canReplyGroup, ← hday, he]
    simp only
    have : t' < e.expiry := by
      rw [hexp]
      have : dayBucket t * msPerDay ≤ t := Nat.div_mul_le_self t msPerDay
      simp only [msPerDay] at this hlt'
      omega
    rw [if_pos this, if_pos hmem]
  · rw [canReplyGroup, canReplyGroup, ← hday]
    cases h : lookupDay rs (dayBucket t) with
    | none => rfl
    | some e =>
      simp only
      have hd : e.day = dayBucket t := lookupDay_day h
      have hwfe := hwf e (lookupDay_mem h)
      rw [hd] at hwfe
      rw [if_pos (lt_of_lt_of_le hlt hwfe),
          if_pos (lt_of_lt_of_le hlt' hwfe)]

/-- Witness for C8 at a concrete store, time and group. -/
theorem claim_C8_daily_cooldown_witness :
    (canReplyGroup (⟨[]⟩ : ReplyStore) 1000 7 = false ↔
      ∃ e, lookupDay (⟨[]⟩ : ReplyStore) (dayBucket 1000) = some e ∧
        1000 < e.expiry ∧ 7 ∈ e.members) ∧
    canReplyGroup (recordGroupReply (⟨[]⟩ : ReplyStore) 1000 7) 2000 7 = false ∧
    canReplyGroup (⟨[]⟩ : ReplyStore) 1000 7 =
      canReplyGroup (⟨[]⟩ : ReplyStore) 2000 7 ∧
    (∃ e, lookupDay (recordGroupReply (⟨[]⟩ : ReplyStore) 1000 7)
        (dayBucket 1000) = some e ∧
      e.expiry = 1000 + 25 * 60 * 60 * 1000 ∧ 7 ∈ e.members) ∧
    ReplyStoreWF (recordGroupReply (⟨[]⟩ : ReplyStore) 1000 7) :=
  claim_C8_daily_cooldown ⟨[]⟩ 1000 2000 7 (by decide) (by decide)

/-! ## Candidate queue, retry schedule and processor (gasguardian-userbot.ts)

The Redis structures of `config.discovery`: list `candidatesToJoin`,
sorted set `candidateRetrySet` (member → due timestamp in ms), hash
`candidateFailCounts`, set `processed_channels`, TTL keys
`join:<groupId>`, set `leftGroups`. Hashes and sorted sets are modelled
as association lists with unique keys updated in place. -/

def maxRetryDelay : Nat := 3600

def maxJoinPerRun : Nat := 30

def GROUP_JOIN_WAIT_MIN : Nat := 3

/-- Redis `HGET` with the numeric default `HINCRBY` starts from. -/
def hashGet (h : List (String × Nat)) (k : String) : Nat :=
  match h.find? (fun p => p.1 == k) with
  | some p => p.2
  | none => 0

/-- Redis `HSET`: update the field in place, or append it. -/
def hashSet : List (String × Nat) → String → Nat → List (String × Nat)
  | [], k, v => [(k, v)]
  | p :: rest, k, v =>
    if p.1 == k then (k, v) :: rest else p :: hashSet rest k v

/-- Redis `HDEL`. -/
def hashDel (h : List (String × Nat)) (k : String) : List (String × Nat) :=
  h.filter fun p => !(p.1 == k)

/-- Redis `ZADD`: members are unique, the score is updated in place. -/
def zadd (z : List (String × Nat)) (score : Nat) (member : String) :
    List (String × Nat) :=
  hashSet z member score

/-- Redis `ZREM`. -/
def zrem (z : List (String × Nat)) (member : String) : List (String × Nat) :=
  hashDel z member

/-- Redis `ZSCORE`. -/
def zscore (z : List (String × Nat)) (member : String) : Option Nat :=
  (z.find? fun p => p.1 == member).map (·.2)

/-- The least-scored entry of a sorted-set fragment, ties broken by
member, as Redis orders equal scores lexicographically. -/
def minDueEntry : List (String × Nat) → Option (String × Nat)
  | [] => none
  | p :: rest =>
    match minDueEntry rest with
    | none => some p
    | some q =>
      if p.2 < q.2 ∨ (p.2 = q.2 ∧ p.1 < q.1) then some p else some q

/-- Redis `ZRANGEBYSCORE key 0 now LIMIT 0 1`. -/
def zrangebyscoreHead (z : List (String × Nat)) (now : Nat) :
    Option (String × Nat) :=
  minDueEntry (z.filter fun p => p.2 ≤ now)

/-- Assoc-list lookup for the `join:<groupId>` TTL keys. -/
def waitLookup (w : List (Nat × Nat)) (g : Nat) : Option Nat :=
  (w.find? fun p => p.1 == g).map (·.2)

/-- Redis `SET join:<groupId> ... EX ...`: store the absolute expiry. -/
def waitSet : List (Nat × Nat) → Nat → Nat → List (Nat × Nat)
  | [], g, e => [(g, e)]
  | p :: rest, g, e =>
    if p.1 == g then (g, e) :: rest else p :: waitSet rest g e

/-- Redis `SADD` on a set of numeric group ids. -/
def saddNat (s : List Nat) (x : Nat) : List Nat :=
  if x ∈ s then s else x :: s

/-- The Redis-backed state touched by the 30-minute join+reply job,
together with the clock (`Date.now()`, in milliseconds). -/
structure Store where
  now : Nat
  mainQueue : List String
  retrySched : List (String × Nat)
  failCounts : List (String × Nat)
  processed : List String
  joinWait : List (Nat × Nat)
  leftGroups : List Nat
  joinCountHour : Nat
  joinsToday : Nat
  repliesToday : Nat
  deriving DecidableEq

/-- The delay (seconds) `scheduleCandidateRetry` computes for the given
base and failure count: `Math.min(maxRetryDelay, baseDelay * 2 ** (count - 1))`. -/
def backoffDelay (baseDelay count : Nat) : Nat :=
  min maxRetryDelay (baseDelay * 2 ^ (count - 1))

/-- Function `scheduleCandidateRetry`: `HINCRBY candidateFailCounts uname 1`, then
`ZADD candidateRetrySet (Date.now() + delay*1000) uname` with the capped
exponential delay. The TS default for `baseDelay` is 10; call sites
without an explicit base pass 10. -/
def scheduleCandidateRetry (s : Store) (uname : String) (baseDelay : Nat) :
    Store :=
  let count := hashGet s.failCounts uname + 1
  { s with
    failCounts := hashSet s.failCounts uname count,
    retrySched :=
      zadd s.retrySched (s.now + backoffDelay baseDelay count * 1000) uname }

/-- Function `clearCandidateFailures`: `HDEL candidateFailCounts uname`. -/
def clearCandidateFailures (s : Store) (uname : String) : Store :=
  { s with failCounts := hashDel s.failCounts uname }

/-- Function `dequeueCandidate`: first `ZRANGEBYSCORE candidateRetrySet 0 now
LIMIT 0 1` followed by `ZREM` on a hit, otherwise `LPOP candidatesToJoin`
(`null` when both are empty). -/
def dequeueCandidate (s : Store) : Option String × Store :=
  match zrangebyscoreHead s.retrySched s.now with
  | some p => (some p.1, { s with retrySched := zrem s.retrySched p.1 })
  | none =>
    match s.mainQueue with
    | [] => (none, s)
    | u :: rest => (some u, { s with mainQueue := rest })

/-- Function `recentlyJoinedGroup` (Redis path): the `join:<groupId>` TTL key
still lives. -/
def recentlyJoinedGroup (s : Store) (groupId : Nat) : Bool :=
  match waitLookup s.joinWait groupId with
  | some e => s.now < e
  | none => false

/-- Function `recordJoinGroup`: `SET join:<groupId> EX GROUP_JOIN_WAIT_MIN*60`
plus the in-memory hourly join counter. -/
def recordJoinGroup (s : Store) (groupId : Nat) : Store :=
  { s with
    joinWait :=
      waitSet s.joinWait groupId (s.now + GROUP_JOIN_WAIT_MIN * 60 * 1000),
    joinCountHour := s.joinCountHour + 1 }

/-- Function `hasLeftGroup`: `SISMEMBER leftGroups groupId`. -/
def hasLeftGroup (s : Store) (groupId : Nat) : Bool :=
  groupId ∈ s.leftGroups

/-- Function `recordLeftGroup`: `SADD leftGroups groupId`. -/
def recordLeftGroup (s : Store) (groupId : Nat) : Store :=
  { s with leftGroups := saddNat s.leftGroups groupId }

/-- The typed outcomes of `Api.channels.JoinChannel` that
`processCandidateQueue` distinguishes. -/
inductive JoinOutcome where
  | success
  | alreadyParticipant
  | floodWait (seconds : Nat)
  | otherError
  deriving DecidableEq

/-- Network collaborators as deterministic oracles: `getInputChannel`
(`none` = resolution failure, `some` = the channel id), the join call
with its typed outcome, `fetchRecentMessages` (the returned text list),
`generateAIReply` applied to the picked prompt text (`""` = generation
failure), `safeSendMessage` per candidate, and the per-iteration
human-like jitter duration in ms. -/
structure Env where
  resolve : String → Option Nat
  joinOutcome : String → JoinOutcome
  recentTexts : String → List String
  aiReply : String → String
  sendOk : String → Bool
  jitterMs : Nat → Nat

inductive StepExit where
  | emptyQueue
  | continueRun
  | floodAbort
  deriving DecidableEq

/-- Trace of one loop iteration of `processCandidateQueue`. -/
structure StepLog where
  dequeued : Option String
  resolvedTo : Option Nat
  joinAttempted : Bool
  leftAfterJoin : Bool
  replied : Bool
  exit : StepExit
  deriving DecidableEq

/-- One iteration of the `processCandidateQueue` loop: dequeue, mark
processed, resolve, skip when recently joined or manually left, join,
activity check (< 5 texts), relevance check, AI generation, send; the
trailing jitter sleep runs only on the paths that fall through to the
bottom of the loop body (full success and the non-flood join error), as
every `continue`/`break` skips it. -/
def processOneCandidate (env : Env) (i : Nat) (s0 : Store) :
    Store × StepLog :=
  match dequeueCandidate s0 with
  | (none, s1) => (s1, ⟨none, none, false, false, false, .emptyQueue⟩)
  | (some uname, s1) =>
    let s2 := { s1 with processed := saddStr s1.processed uname }
    match env.resolve uname with
    | none =>
      (scheduleCandidateRetry s2 uname 10,
       ⟨some uname, none, false, false, false, .continueRun⟩)
    | some groupId =>
      if recentlyJoinedGroup s2 groupId then
        (clearCandidateFailures s2 uname,
         ⟨some uname, some groupId, false, false, false, .continueRun⟩)
      else if hasLeftGroup s2 groupId then
        (clearCandidateFailures s2 uname,
         ⟨some uname, some groupId, false, false, false, .continueRun⟩)
      else
        match env.joinOutcome uname with
        | .success =>
          let s3 := recordJoinGroup s2 groupId
          let s4 := { s3 with joinsToday := s3.joinsToday + 1 }
          let texts := env.recentTexts uname
          if texts.length < 5 then
            (clearCandidateFailures (recordLeftGroup s4 groupId) uname,
             ⟨some uname, some groupId, true, true, false, .continueRun⟩)
          else if containsRelevantKeyword texts = false then
            (clearCandidateFailures (recordLeftGroup s4 groupId) uname,
             ⟨some uname, some groupId, true, true, false, .continueRun⟩)
          else
            let pickedText := (pickMostRelevantMessage texts).getD ""
            if env.aiReply pickedText = "" then
              (scheduleCandidateRetry (recordLeftGroup s4 groupId) uname 10,
               ⟨some uname, some groupId, true, true, false, .continueRun⟩)
            else if env.sendOk uname then
              let s5 := { s4 with repliesToday := s4.repliesToday + 1 }
              let s6 := clearCandidateFailures s5 uname
              ({ s6 with now := s6.now + env.jitterMs i },
               ⟨some uname, some groupId, true, false, true, .continueRun⟩)
            else
              (scheduleCandidateRetry (recordLeftGroup s4 groupId) uname 10,
               ⟨some uname, some groupId, true, true, false, .continueRun⟩)
        | .alreadyParticipant =>
          (s2, ⟨some uname, some groupId, true, false, false, .continueRun⟩)
        | .floodWait w =>
          let sA := { s2 with now := s2.now + (w + 5) * 1000 }
          (scheduleCandidateRetry sA uname w,
           ⟨some uname, some groupId, true, false, false, .floodAbort⟩)
        | .otherError =>
          let s5 := scheduleCandidateRetry (recordLeftGroup s2 groupId) uname 10
          ({ s5 with now := s5.now + env.jitterMs i },
           ⟨some uname, some groupId, true, false, false, .continueRun⟩)

/-- The `for` loop of `processCandidateQueue`: up to `fuel` iterations,
stopping at an empty dequeue or a flood-wait `break`. -/
def processRun (env : Env) : Nat → Nat → Store → Store × List StepLog
  | 0, _, s => (s, [])
  | fuel + 1, i, s =>
    match processOneCandidate env i s with
    | (s', log) =>
      match log.exit with
      | .continueRun =>
        match processRun env fuel (i + 1) s' with
        | (s'', logs) => (s'', log :: logs)
      | _ => (s', [log])

/-- Function `processCandidateQueue`: at most `maxJoinPerRun` iterations. -/
def processCandidateQueue (env : Env) (s : Store) : Store × List StepLog :=
  processRun env maxJoinPerRun 0 s

theorem find?_hashSet_self (k : String) (v : Nat) :
    ∀ h : List (String × Nat),
      (hashSet h k v).find? (fun p => p.1 == k) = some (k, v) := by
  intro h
  induction h with
  | nil => simp [hashSet, List.find?]
  | cons p rest ih =>
    rw [hashSet]
    split
    · simp [List.find?]
    · rename_i hp
      have hb : (p.1 == k) = false := by simpa using hp
      simp [List.find?, hb, ih]

theorem hashGet_hashSet_self (h : List (String × Nat)) (k : String) (v : Nat) :
    hashGet (hashSet h k v) k = v := by
  rw [hashGet, find?_hashSet_self]

theorem zscore_zadd_self (z : List (String × Nat)) (score : Nat) (m : String) :
    zscore (zadd z score m) m = some score := by
  rw [zscore, zadd, find?_hashSet_self]
  rfl

theorem hashGet_hashDel_self (h : List (String × Nat)) (k : String) :
    hashGet (hashDel h k) k = 0 := by
  rw [hashGet, hashDel]
  rw [List.find?_eq_none.mpr]
  intro p hp
  have := List.of_mem_filter hp
  simpa using this

theorem backoffDelay_mono (baseDelay N : Nat) :
    backoffDelay baseDelay N ≤ backoffDelay baseDelay (N + 1) := by
  rw [backoffDelay, backoffDelay]
  apply min_le_min_left
  apply Nat.mul_le_mul_left
  exact Nat.pow_le_pow_right (by norm_num) (by omega)

/-- C1: the Nth consecutive retry (failure count N−1 before the call,
no intervening clear) bumps the per-handle failure count by exactly 1
and schedules the handle at `now + min(maxRetryDelay, baseDelay *
2^(N−1)) * 1000` ms — `maxRetryDelay = 3600` s, default base 10 — and
this delay is non-decreasing in N. -/
theorem claim_C1_retry_backoff (s : Store) (uname : String) (n : Nat)
    (h : hashGet s.failCounts uname = n) :
    hashGet (scheduleCandidateRetry s uname 10).failCounts uname = n + 1 ∧
    zscore (scheduleCandidateRetry s uname 10).retrySched uname =
      some (s.now + min 3600 (10 * 2 ^ n) * 1000) ∧
    (∀ N, backoffDelay 10 N ≤ backoffDelay 10 (N + 1)) := by
  refine ⟨?_, ?_, fun N => backoffDelay_mono 10 N⟩
  · rw [scheduleCandidateRetry]
    simp only [h]
    exact hashGet_hashSet_self _ _ _
  · rw [scheduleCandidateRetry]
    simp only [h]
    rw [zscore_zadd_self]
    rw [backoffDelay]
    simp [maxRetryDelay]

/-- Witness for C1: third consecutive failure of a handle with failure
count 2 gets delay `min(3600, 10 * 2^2) = 40` seconds. -/
theorem claim_C1_retry_backoff_witness :
    hashGet (scheduleCandidateRetry
        ⟨100000, [], [], [("@alpha", 2)], [], [], [], 0, 0, 0⟩
        "@alpha" 10).failCounts "@alpha" = 2 + 1 ∧
    zscore (scheduleCandidateRetry
        ⟨100000, [], [], [("@alpha", 2)], [], [], [], 0, 0, 0⟩
        "@alpha" 10).retrySched "@alpha" =
      some (100000 + min 3600 (10 * 2 ^ 2) * 1000) ∧
    backoffDelay 10 3 ≤ backoffDelay 10 4 := by
  obtain ⟨h1, h2, h3⟩ :=
    claim_C1_retry_backoff
      ⟨100000, [], [], [("@alpha", 2)], [], [], [], 0, 0, 0⟩
      "@alpha" 2 (by decide)
  exact ⟨h1, h2, h3 3⟩

theorem minDueEntry_mem :
    ∀ (l : List (String × Nat)) (q : String × Nat),
      minDueEntry l = some q → q ∈ l := by
  intro l
  induction l with
  | nil => intro q h; simp [minDueEntry] at h
  | cons p rest ih =>
    intro q h
    rw [minDueEntry] at h
    cases hm : minDueEntry rest with
    | none =>
      rw [hm] at h
      rw [Option.some.injEq] at h
      exact h ▸ List.mem_cons_self _ _
    | some q0 =>
      rw [hm] at h
      dsimp only at h
      split at h
      · rw [Option.some.injEq] at h
        exact h ▸ List.mem_cons_self _ _
      · rw [Option.some.injEq] at h
        exact h ▸ List.mem_cons_of_mem _ (ih q0 hm)

theorem minDueEntry_cons_isSome (p : String × Nat) (rest : List (String × Nat)) :
    (minDueEntry (p :: rest)).isSome := by
  rw [minDueEntry]
  cases minDueEntry rest
  · rfl
  · dsimp only; split <;> rfl

theorem minDueEntry_le :
    ∀ (l : List (String × Nat)) (q : String × Nat),
      minDueEntry l = some q → ∀ p ∈ l, q.2 ≤ p.2 := by
  intro l
  induction l with
  | nil => intro q h; simp [minDueEntry] at h
  | cons p rest ih =>
    intro q h x hx
    cases hm : minDueEntry rest with
    | none =>
      have hrest : rest = [] := by
        cases rest with
        | nil => rfl
        | cons a as =>
          have hs := minDueEntry_cons_isSome a as
          rw [hm] at hs
          simp at hs
      subst hrest
      simp only [minDueEntry, hm, Option.some.injEq] at h
      rcases List.mem_singleton.mp hx with rfl
      rw [← h]
    | some q0 =>
      simp only [minDueEntry, hm] at h
      split at h
      · rename_i hcond
        rw [Option.some.injEq] at h
        have hq0 := ih q0 hm
        rcases List.mem_cons.mp hx with rfl | hx2
        · rw [← h]
        · have h1 := hq0 x hx2
          rw [← h]
          rcases hcond with hlt | ⟨heq2, _⟩ <;> omega
      · rename_i hcond
        rw [Option.some.injEq] at h
        rcases List.mem_cons.mp hx with rfl | hx2
        · rw [← h]
          push_neg at hcond
          omega
        · rw [← h]
          exact ih q0 hm x hx2

/-- C2: `dequeueCandidate` serves the retry schedule whenever some entry
is due (an entry of least due-time, removed by `ZREM`), pops the FIFO
head only when no entry is due, and returns `null` only when the retry
schedule has no due entry and the main queue is empty. -/
theorem claim_C2_dequeue_order (s : Store) :
    ((∃ p ∈ s.retrySched, p.2 ≤ s.now) →
      ∃ u d, (u, d) ∈ s.retrySched ∧ d ≤ s.now ∧
        (∀ p ∈ s.retrySched, p.2 ≤ s.now → d ≤ p.2) ∧
        dequeueCandidate s =
          (some u, { s with retrySched := zrem s.retrySched u })) ∧
    ((¬ ∃ p ∈ s.retrySched, p.2 ≤ s.now) →
      dequeueCandidate s =
        (match s.mainQueue with
          | [] => (none, s)
          | u :: rest => (some u, { s with mainQueue := rest }))) ∧
    ((dequeueCandidate s).1 = none →
      (¬ ∃ p ∈ s.retrySched, p.2 ≤ s.now) ∧ s.mainQueue = []) := by
  refine ⟨?_, ?_, ?_⟩
  · rintro ⟨p0, hp0, hdue0⟩
    have hfil : p0 ∈ s.retrySched.filter (fun p => p.2 ≤ s.now) :=
      List.mem_filter.mpr ⟨hp0, by simpa using hdue0⟩
    obtain ⟨a, as, heq⟩ :=
      List.exists_cons_of_ne_nil (List.ne_nil_of_mem hfil)
    have hsome : (minDueEntry
        (s.retrySched.filter (fun p => p.2 ≤ s.now))).isSome := by
      rw [heq]; exact minDueEntry_cons_isSome a as
    obtain ⟨q, hq⟩ := Option.isSome_iff_exists.mp hsome
    have hqmem := minDueEntry_mem _ q hq
    have hqz := List.mem_filter.mp hqmem
    refine ⟨q.1, q.2, hqz.1, by simpa using hqz.2, ?_, ?_⟩
    · intro p hp hple
      exact minDueEntry_le _ q hq p
        (List.mem_filter.mpr ⟨hp, by simpa using hple⟩)
    · rw [dequeueCandidate, zrangebyscoreHead, hq]
  · intro hnone
    have hfil : s.retrySched.filter (fun p => p.2 ≤ s.now) = [] := by
      rw [List.filter_eq_nil_iff]
      intro p hp
      simp only [decide_eq_true_eq]
      exact fun hle => hnone ⟨p, hp, hle⟩
    rw [dequeueCandidate, zrangebyscoreHead, hfil]
    rfl
  · intro hres
    by_cases hdue : ∃ p ∈ s.retrySched, p.2 ≤ s.now
    · obtain ⟨p0, hp0, hdue0⟩ := hdue
      have hfil : p0 ∈ s.retrySched.filter (fun p => p.2 ≤ s.now) :=
        List.mem_filter.mpr ⟨hp0, by simpa using hdue0⟩
      obtain ⟨a, as, heq⟩ :=
        List.exists_cons_of_ne_nil (List.ne_nil_of_mem hfil)
      have hsome : (minDueEntry
          (s.retrySched.filter (fun p => p.2 ≤ s.now))).isSome := by
        rw [heq]; exact minDueEntry_cons_isSome a as
      obtain ⟨q, hq⟩ := Option.isSome_iff_exists.mp hsome
      rw [dequeueCandidate, zrangebyscoreHead, hq] at hres
      simp at hres
    · refine ⟨hdue, ?_⟩
      have hfil : s.retrySched.filter (fun p => p.2 ≤ s.now) = [] := by
        rw [List.filter_eq_nil_iff]
        intro p hp
        simp only [decide_eq_true_eq]
        exact fun hle => hdue ⟨p, hp, hle⟩
      rw [dequeueCandidate, zrangebyscoreHead, hfil] at hres
      cases hq : s.mainQueue with
      | nil => rfl
      | cons u rest => rw [hq] at hres; simp [minDueEntry] at hres

/-- Witness for C2: a due retry entry wins over the FIFO head; with no
due entry the FIFO head is popped. -/
theorem claim_C2_dequeue_order_witness :
    (∃ u d, (u, d) ∈ [("@r", 50)] ∧ d ≤ 1000 ∧
      (∀ p ∈ [("@r", 50)], p.2 ≤ 1000 → d ≤ p.2) ∧
      dequeueCandidate ⟨1000, ["@q"], [("@r", 50)], [], [], [], [], 0, 0, 0⟩ =
        (some u, { Store.mk 1000 ["@q"] [("@r", 50)] [] [] [] [] 0 0 0 with
          retrySched := zrem [("@r", 50)] u })) ∧
    dequeueCandidate ⟨1000, ["@q"], [("@r", 5000)], [], [], [], [], 0, 0, 0⟩ =
      (some "@q", ⟨1000, [], [("@r", 5000)], [], [], [], [], 0, 0, 0⟩) :=
  ⟨(claim_C2_dequeue_order
      ⟨1000, ["@q"], [("@r", 50)], [], [], [], [], 0, 0, 0⟩).1
      ⟨("@r", 50), by decide, by decide⟩,
   (claim_C2_dequeue_order
      ⟨1000, ["@q"], [("@r", 5000)], [], [], [], [], 0, 0, 0⟩).2.1
      (by decide)⟩

theorem dequeueCandidate_frame (s : Store) :
    (dequeueCandidate s).2.now = s.now ∧
    (dequeueCandidate s).2.failCounts = s.failCounts ∧
    (dequeueCandidate s).2.processed = s.processed ∧
    (dequeueCandidate s).2.joinWait = s.joinWait ∧
    (dequeueCandidate s).2.leftGroups = s.leftGroups := by
  rw [dequeueCandidate]
  cases zrangebyscoreHead s.retrySched s.now
  · cases s.mainQueue <;> exact ⟨rfl, rfl, rfl, rfl, rfl⟩
  · exact ⟨rfl, rfl, rfl, rfl, rfl⟩

theorem recentlyJoinedGroup_processed (s : Store) (p : List String) (g : Nat) :
    recentlyJoinedGroup { s with processed := p } g = recentlyJoinedGroup s g :=
  rfl

theorem hasLeftGroup_processed (s : Store) (p : List String) (g : Nat) :
    hasLeftGroup { s with processed := p } g = hasLeftGroup s g := rfl

theorem leftGroups_scheduleCandidateRetry (s : Store) (u : String) (b : Nat) :
    (scheduleCandidateRetry s u b).leftGroups = s.leftGroups := rfl

theorem leftGroups_clearCandidateFailures (s : Store) (u : String) :
    (clearCandidateFailures s u).leftGroups = s.leftGroups := rfl

theorem leftGroups_recordJoinGroup (s : Store) (g : Nat) :
    (recordJoinGroup s g).leftGroups = s.leftGroups := rfl

theorem leftGroups_recordLeftGroup (s : Store) (g : Nat) :
    (recordLeftGroup s g).leftGroups = saddNat s.leftGroups g := rfl

theorem mem_saddNat {l : List Nat} {g : Nat} (x : Nat) (h : g ∈ l) :
    g ∈ saddNat l x := by
  rw [saddNat]
  split
  · exact h
  · exact List.mem_cons_of_mem _ h

/-- Branch computation: resolution failure reschedules with the default
base 10 and continues. -/
theorem processOneCandidate_resolutionFailure (env : Env) (i : Nat)
    (s s1 : Store) (uname : String)
    (hdq : dequeueCandidate s = (some uname, s1))
    (hres : env.resolve uname = none) :
    processOneCandidate env i s =
      (scheduleCandidateRetry
          { s1 with processed := saddStr s1.processed uname } uname 10,
       ⟨some uname, none, false, false, false, .continueRun⟩) := by
  rw [processOneCandidate, hdq]
  simp only [hres]

theorem self_mem_saddNat (l : List Nat) (g : Nat) : g ∈ saddNat l g := by
  rw [saddNat]
  split
  · assumption
  · exact List.mem_cons_self _ _

/-- Branch computation: `FLOOD_WAIT(w)` sleeps `(w + 5)` s, reschedules
with base `w` and breaks. -/
theorem processOneCandidate_floodWait (env : Env) (i : Nat) (s s1 : Store)
    (uname : String) (groupId w : Nat)
    (hdq : dequeueCandidate s = (some uname, s1))
    (hres : env.resolve uname = some groupId)
    (hrj : recentlyJoinedGroup s1 groupId = false)
    (hleft : hasLeftGroup s1 groupId = false)
    (hjo : env.joinOutcome uname = .floodWait w) :
    processOneCandidate env i s =
      (scheduleCandidateRetry
          { s1 with processed := saddStr s1.processed uname,
                    now := s1.now + (w + 5) * 1000 } uname w,
       ⟨some uname, some groupId, true, false, false, .floodAbort⟩) := by
  rw [processOneCandidate, hdq]
  simp only [hres, recentlyJoinedGroup_processed, hasLeftGroup_processed,
             hrj, hleft, hjo, Bool.false_eq_true, if_false]

/-- In any run, a flood-abort log entry is the last one: no further
candidate is dequeued after it. -/
theorem processRun_flood_last (env : Env) :
    ∀ (fuel i : Nat) (s : Store) (k : Nat) (log : StepLog),
      ((processRun env fuel i s).2)[k]? = some log →
      log.exit = .floodAbort →
      k + 1 = (processRun env fuel i s).2.length := by
  intro fuel
  induction fuel with
  | zero => intro i s k log h _; simp [processRun] at h
  | succ fuel ih =>
    intro i s k log h hexit
    rcases hstep : processOneCandidate env i s with ⟨s', lg⟩
    obtain ⟨dq, rt, ja, la, rp, ex⟩ := lg
    rw [processRun, hstep] at h ⊢
    cases ex with
    | continueRun =>
      dsimp only at h ⊢
      cases k with
      | zero =>
        simp only [List.getElem?_cons_zero, Option.some.injEq] at h
        rw [← h] at hexit
        exact absurd hexit (by simp)
      | succ k =>
        simp only [List.getElem?_cons_succ] at h
        have hki := ih (i + 1) s' k log h hexit
        simp only [List.length_cons]
        omega
    | emptyQueue =>
      dsimp only at h ⊢
      cases k with
      | zero => simp
      | succ k => simp at h
    | floodAbort =>
      dsimp only at h ⊢
      cases k with
      | zero => simp
      | succ k => simp at h

/-- C4: on `FLOOD_WAIT(w)` the processor sleeps `w + 5` seconds (the
platform-reported wait plus the 5 s grace), reschedules the candidate
with the wait time as the backoff base (failure count bumped by 1), and
aborts the run: a flood-abort log entry is always the last one of any
run, so no further candidate is dequeued or processed. -/
theorem claim_C4_flood_wait_aborts_run (env : Env) (i : Nat) (s s1 : Store)
    (uname : String) (groupId w : Nat)
    (hdq : dequeueCandidate s = (some uname, s1))
    (hres : env.resolve uname = some groupId)
    (hrj : recentlyJoinedGroup s1 groupId = false)
    (hleft : hasLeftGroup s1 groupId = false)
    (hjo : env.joinOutcome uname = .floodWait w) :
    (processOneCandidate env i s).1.now = s1.now + (w + 5) * 1000 ∧
    hashGet (processOneCandidate env i s).1.failCounts uname =
      hashGet s1.failCounts uname + 1 ∧
    zscore (processOneCandidate env i s).1.retrySched uname =
      some (s1.now + (w + 5) * 1000 +
        backoffDelay w (hashGet s1.failCounts uname + 1) * 1000) ∧
    (processOneCandidate env i s).2.exit = .floodAbort ∧
    (∀ (fuel j : Nat) (s0 : Store) (k : Nat) (log : StepLog),
      ((processRun env fuel j s0).2)[k]? = some log →
      log.exit = .floodAbort →
      k + 1 = (processRun env fuel j s0).2.length) := by
  rw [processOneCandidate_floodWait env i s s1 uname groupId w
        hdq hres hrj hleft hjo]
  refine ⟨rfl, ?_, ?_, rfl, processRun_flood_last env⟩
  · rw [scheduleCandidateRetry]
    exact hashGet_hashSet_self _ _ _
  · rw [scheduleCandidateRetry]
    exact zscore_zadd_self _ _ _

/-- Witness for C4: a concrete store and oracle where joining hits
`FLOOD_WAIT(30)`. -/
theorem claim_C4_flood_wait_aborts_run_witness :
    (processOneCandidate
        ⟨fun _ => some 9, fun _ => .floodWait 30, fun _ => [],
         fun _ => "", fun _ => false, fun _ => 0⟩ 0
        ⟨1000, ["@x"], [], [], [], [], [], 0, 0, 0⟩).1.now =
      1000 + (30 + 5) * 1000 ∧
    hashGet (processOneCandidate
        ⟨fun _ => some 9, fun _ => .floodWait 30, fun _ => [],
         fun _ => "", fun _ => false, fun _ => 0⟩ 0
        ⟨1000, ["@x"], [], [], [], [], [], 0, 0, 0⟩).1.failCounts "@x" =
      hashGet [] "@x" + 1 ∧
    zscore (processOneCandidate
        ⟨fun _ => some 9, fun _ => .floodWait 30, fun _ => [],
         fun _ => "", fun _ => false, fun _ => 0⟩ 0
        ⟨1000, ["@x"], [], [], [], [], [], 0, 0, 0⟩).1.retrySched "@x" =
      some (1000 + (30 + 5) * 1000 + backoffDelay 30 (hashGet [] "@x" + 1) * 1000) ∧
    (processOneCandidate
        ⟨fun _ => some 9, fun _ => .floodWait 30, fun _ => [],
         fun _ => "", fun _ => false, fun _ => 0⟩ 0
        ⟨1000, ["@x"], [], [], [], [], [], 0, 0, 0⟩).2.exit = .floodAbort := by
  obtain ⟨h1, h2, h3, h4, _⟩ :=
    claim_C4_flood_wait_aborts_run
      ⟨fun _ => some 9, fun _ => .floodWait 30, fun _ => [],
       fun _ => "", fun _ => false, fun _ => 0⟩ 0
      ⟨1000, ["@x"], [], [], [], [], [], 0, 0, 0⟩
      ⟨1000, [], [], [], [], [], [], 0, 0, 0⟩ "@x" 9 30
      (by decide) rfl rfl rfl rfl
  exact ⟨h1, h2, h3, h4⟩

/-- C5: each transient failure — resolution failure, AI generation
returning `""`, or reply-send failure — bumps the handle's failure count
by exactly 1 (never resetting it) and schedules a retry at `now +
min(3600, 10 * 2^(count−1))` seconds, while the full-success path clears
the failure count. -/
theorem claim_C5_transient_retry (env : Env) (i : Nat) (s s1 : Store)
    (uname : String) (hdq : dequeueCandidate s = (some uname, s1)) :
    (env.resolve uname = none →
      hashGet (processOneCandidate env i s).1.failCounts uname =
        hashGet s1.failCounts uname + 1 ∧
      zscore (processOneCandidate env i s).1.retrySched uname =
        some (s1.now +
          backoffDelay 10 (hashGet s1.failCounts uname + 1) * 1000)) ∧
    (∀ groupId, env.resolve uname = some groupId →
      recentlyJoinedGroup s1 groupId = false →
      hasLeftGroup s1 groupId = false →
      env.joinOutcome uname = .success →
      ¬ (env.recentTexts uname).length < 5 →
      containsRelevantKeyword (env.recentTexts uname) = true →
      env.aiReply ((pickMostRelevantMessage (env.recentTexts uname)).getD "")
          = "" →
      hashGet (processOneCandidate env i s).1.failCounts uname =
        hashGet s1.failCounts uname + 1 ∧
      zscore (processOneCandidate env i s).1.retrySched uname =
        some (s1.now +
          backoffDelay 10 (hashGet s1.failCounts uname + 1) * 1000)) ∧
    (∀ groupId, env.resolve uname = some groupId →
      recentlyJoinedGroup s1 groupId = false →
      hasLeftGroup s1 groupId = false →
      env.joinOutcome uname = .success →
      ¬ (env.recentTexts uname).length < 5 →
      containsRelevantKeyword (env.recentTexts uname) = true →
      ¬ env.aiReply ((pickMostRelevantMessage (env.recentTexts uname)).getD "")
          = "" →
      env.sendOk uname = false →
      hashGet (processOneCandidate env i s).1.failCounts uname =
        hashGet s1.failCounts uname + 1 ∧
      zscore (processOneCandidate env i s).1.retrySched uname =
        some (s1.now +
          backoffDelay 10 (hashGet s1.failCounts uname + 1) * 1000)) ∧
    (∀ groupId, env.resolve uname = some groupId →
      recentlyJoinedGroup s1 groupId = false →
      hasLeftGroup s1 groupId = false →
      env.joinOutcome uname = .success →
      ¬ (env.recentTexts uname).length < 5 →
      containsRelevantKeyword (env.recentTexts uname) = true →
      ¬ env.aiReply ((pickMostRelevantMessage (env.recentTexts uname)).getD "")
          = "" →
      env.sendOk uname = true →
      hashGet (processOneCandidate env i s).1.failCounts uname = 0) := by
  refine ⟨?_, ?_, ?_, ?_⟩
  · intro hres
    rw [processOneCandidate, hdq]
    simp only [hres]
    exact ⟨hashGet_hashSet_self _ _ _, zscore_zadd_self _ _ _⟩
  · intro groupId hres hrj hleft hjo hlen hrel hai
    rw [processOneCandidate, hdq]
    simp only [hres, recentlyJoinedGroup_processed, hasLeftGroup_processed,
               hrj, hleft, hjo, Bool.false_eq_true, if_false]
    rw [if_neg hlen, if_neg (by simp [hrel]), if_pos hai]
    exact ⟨hashGet_hashSet_self _ _ _, zscore_zadd_self _ _ _⟩
  · intro groupId hres hrj hleft hjo hlen hrel hai hsend
    rw [processOneCandidate, hdq]
    simp only [hres, recentlyJoinedGroup_processed, hasLeftGroup_processed,
               hrj, hleft, hjo, Bool.false_eq_true, if_false]
    rw [if_neg hlen, if_neg (by simp [hrel]), if_neg hai]
    simp only [hsend, Bool.false_eq_true, if_false]
    exact ⟨hashGet_hashSet_self _ _ _, zscore_zadd_self _ _ _⟩
  · intro groupId hres hrj hleft hjo hlen hrel hai hsend
    rw [processOneCandidate, hdq]
    simp only [hres, recentlyJoinedGroup_processed, hasLeftGroup_processed,
               hrj, hleft, hjo, Bool.false_eq_true, if_false]
    rw [if_neg hlen, if_neg (by simp [hrel]), if_neg hai]
    simp only [hsend, if_true]
    exact hashGet_hashDel_self _ _

/-- Witness for C5: a resolution failure increments the count and
schedules a retry; a later full success clears the count. -/
theorem claim_C5_transient_retry_witness :
    (hashGet (processOneCandidate
        ⟨fun _ => none, fun _ => .success, fun _ => [],
         fun _ => "", fun _ => false, fun _ => 0⟩ 0
        ⟨0, ["@x"], [], [("@x", 4)], [], [], [], 0, 0, 0⟩).1.failCounts "@x" =
      hashGet [("@x", 4)] "@x" + 1 ∧
     zscore (processOneCandidate
        ⟨fun _ => none, fun _ => .success, fun _ => [],
         fun _ => "", fun _ => false, fun _ => 0⟩ 0
        ⟨0, ["@x"], [], [("@x", 4)], [], [], [], 0, 0, 0⟩).1.retrySched "@x" =
      some (0 + backoffDelay 10 (hashGet [("@x", 4)] "@x" + 1) * 1000)) ∧
    hashGet (processOneCandidate
        ⟨fun _ => some 9, fun _ => .success,
         fun _ => ["gas is high", "a", "b", "c", "d"],
         fun _ => "sure", fun _ => true, fun _ => 0⟩ 0
        ⟨0, ["@x"], [], [("@x", 4)], [], [], [], 0, 0, 0⟩).1.failCounts "@x" =
      0 :=
  ⟨(claim_C5_transient_retry
      ⟨fun _ => none, fun _ => .success, fun _ => [],
       fun _ => "", fun _ => false, fun _ => 0⟩ 0
      ⟨0, ["@x"], [], [("@x", 4)], [], [], [], 0, 0, 0⟩
      ⟨0, [], [], [("@x", 4)], [], [], [], 0, 0, 0⟩ "@x"
      (by decide)).1 rfl,
   (claim_C5_transient_retry
      ⟨fun _ => some 9, fun _ => .success,
       fun _ => ["gas is high", "a", "b", "c", "d"],
       fun _ => "sure", fun _ => true, fun _ => 0⟩ 0
      ⟨0, ["@x"], [], [("@x", 4)], [], [], [], 0, 0, 0⟩
      ⟨0, [], [], [("@x", 4)], [], [], [], 0, 0, 0⟩ "@x"
      (by decide)).2.2.2 9 rfl rfl rfl rfl (by decide) (by decide)
      (by decide) rfl⟩

/-- C6 counterexample: a handle sitting in the main queue while also
holding a not-yet-due retry entry is dequeued from the FIFO; the
low-activity verdict leaves the group, marks it left, clears the failure
count — but the retry-schedule entry survives, refuting "no retry entry
... remains for that handle afterward". -/
theorem claim_C6_counterexample :
    (zscore (processOneCandidate
        ⟨fun _ => some 1, fun _ => .success, fun _ => ["x", "y"],
         fun _ => "", fun _ => false, fun _ => 0⟩ 0
        ⟨0, ["@a"], [("@a", 999999999)], [], [], [], [], 0, 0, 0⟩).1.retrySched
      "@a").isSome = true ∧
    hasLeftGroup (processOneCandidate
        ⟨fun _ => some 1, fun _ => .success, fun _ => ["x", "y"],
         fun _ => "", fun _ => false, fun _ => 0⟩ 0
        ⟨0, ["@a"], [("@a", 999999999)], [], [], [], [], 0, 0, 0⟩).1 1 = true ∧
    (processOneCandidate
        ⟨fun _ => some 1, fun _ => .success, fun _ => ["x", "y"],
         fun _ => "", fun _ => false, fun _ => 0⟩ 0
        ⟨0, ["@a"], [("@a", 999999999)], [], [], [], [], 0, 0, 0⟩).2.leftAfterJoin
      = true := by
  decide

/-- C6 (amended): on a quality verdict (fewer than 5 texts among the
fetched messages, or no relevance-keyword match) after a successful
join, the processor leaves the group, marks it left, and clears the
handle's failure count; the retry schedule is left exactly as it was
after the dequeue — so a retry entry remains only if the handle
independently held a not-yet-due entry while sitting in the main
queue. -/
theorem claim_C6_quality_leave (env : Env) (i : Nat) (s s1 : Store)
    (uname : String) (groupId : Nat)
    (hdq : dequeueCandidate s = (some uname, s1))
    (hres : env.resolve uname = some groupId)
    (hrj : recentlyJoinedGroup s1 groupId = false)
    (hleft : hasLeftGroup s1 groupId = false)
    (hjo : env.joinOutcome uname = .success)
    (hqual : (env.recentTexts uname).length < 5 ∨
      containsRelevantKeyword (env.recentTexts uname) = false) :
    hasLeftGroup (processOneCandidate env i s).1 groupId = true ∧
    hashGet (processOneCandidate env i s).1.failCounts uname = 0 ∧
    (processOneCandidate env i s).1.retrySched = s1.retrySched ∧
    (processOneCandidate env i s).2 =
      ⟨some uname, some groupId, true, true, false, .continueRun⟩ := by
  rw [processOneCandidate, hdq]
  simp only [hres, recentlyJoinedGroup_processed, hasLeftGroup_processed,
             hrj, hleft, hjo, Bool.false_eq_true, if_false]
  by_cases hlen : (env.recentTexts uname).length < 5
  · rw [if_pos hlen]
    refine ⟨?_, hashGet_hashDel_self _ _, rfl, rfl⟩
    simp only [hasLeftGroup, decide_eq_true_eq]
    exact self_mem_saddNat _ _
  · rw [if_neg hlen]
    have hrel : containsRelevantKeyword (env.recentTexts uname) = false := by
      rcases hqual with h | h
      · exact absurd h hlen
      · exact h
    rw [if_pos hrel]
    refine ⟨?_, hashGet_hashDel_self _ _, rfl, rfl⟩
    simp only [hasLeftGroup, decide_eq_true_eq]
    exact self_mem_saddNat _ _

/-- Witness for C6 (amended) at a concrete low-activity candidate. -/
theorem claim_C6_quality_leave_witness :
    hasLeftGroup (processOneCandidate
        ⟨fun _ => some 1, fun _ => .success, fun _ => ["x", "y"],
         fun _ => "", fun _ => false, fun _ => 0⟩ 0
        ⟨0, ["@a"], [], [("@a", 3)], [], [], [], 0, 0, 0⟩).1 1 = true ∧
    hashGet (processOneCandidate
        ⟨fun _ => some 1, fun _ => .success, fun _ => ["x", "y"],
         fun _ => "", fun _ => false, fun _ => 0⟩ 0
        ⟨0, ["@a"], [], [("@a", 3)], [], [], [], 0, 0, 0⟩).1.failCounts "@a" = 0 ∧
    (processOneCandidate
        ⟨fun _ => some 1, fun _ => .success, fun _ => ["x", "y"],
         fun _ => "", fun _ => false, fun _ => 0⟩ 0
        ⟨0, ["@a"], [], [("@a", 3)], [], [], [], 0, 0, 0⟩).1.retrySched = [] ∧
    (processOneCandidate
        ⟨fun _ => some 1, fun _ => .success, fun _ => ["x", "y"],
         fun _ => "", fun _ => false, fun _ => 0⟩ 0
        ⟨0, ["@a"], [], [("@a", 3)], [], [], [], 0, 0, 0⟩).2 =
      ⟨some "@a", some 1, true, true, false, .continueRun⟩ :=
  claim_C6_quality_leave
    ⟨fun _ => some 1, fun _ => .success, fun _ => ["x", "y"],
     fun _ => "", fun _ => false, fun _ => 0⟩ 0
    ⟨0, ["@a"], [], [("@a", 3)], [], [], [], 0, 0, 0⟩
    ⟨0, [], [], [("@a", 3)], [], [], [], 0, 0, 0⟩ "@a" 1
    (by decide) rfl rfl rfl rfl (Or.inl (by decide))

theorem hasLeftGroup_mem (s : Store) (g : Nat) :
    hasLeftGroup s g = true ↔ g ∈ s.leftGroups := by
  simp [hasLeftGroup]

/-- Step-level skip: a group in `leftGroups` stays there across any
iteration, and an iteration whose candidate resolves to it never
attempts a join and continues the run. -/
theorem processOneCandidate_left_skip (env : Env) (i : Nat) (s : Store)
    (g : Nat) (hleft : hasLeftGroup s g = true) :
    hasLeftGroup (processOneCandidate env i s).1 g = true ∧
    ((processOneCandidate env i s).2.resolvedTo = some g →
      (processOneCandidate env i s).2.joinAttempted = false ∧
      (processOneCandidate env i s).2.exit = .continueRun) := by
  have hmem : g ∈ s.leftGroups := (hasLeftGroup_mem s g).mp hleft
  rcases hdq : dequeueCandidate s with ⟨o, s1⟩
  have hfr := dequeueCandidate_frame s
  rw [hdq] at hfr
  have hlg : s1.leftGroups = s.leftGroups := hfr.2.2.2.2
  have hmem1 : g ∈ s1.leftGroups := hlg ▸ hmem
  rw [processOneCandidate, hdq]
  cases o with
  | none =>
    refine ⟨(hasLeftGroup_mem _ _).mpr hmem1, ?_⟩
    intro hco
    simp at hco
  | some uname =>
    dsimp only
    cases hres : env.resolve uname with
    | none =>
      refine ⟨(hasLeftGroup_mem _ _).mpr hmem1, ?_⟩
      intro hco
      simp at hco
    | some groupId =>
      dsimp only
      by_cases hrj :
          recentlyJoinedGroup
            { s1 with processed := saddStr s1.processed uname } groupId = true
      · rw [if_pos hrj]
        exact ⟨(hasLeftGroup_mem _ _).mpr hmem1, fun _ => ⟨rfl, rfl⟩⟩
      · rw [if_neg hrj]
        by_cases hhl :
            hasLeftGroup
              { s1 with processed := saddStr s1.processed uname } groupId = true
        · rw [if_pos hhl]
          exact ⟨(hasLeftGroup_mem _ _).mpr hmem1, fun _ => ⟨rfl, rfl⟩⟩
        · rw [if_neg hhl]
          have hgne : groupId ≠ g := by
            intro hco
            subst hco
            exact hhl ((hasLeftGroup_mem _ _).mpr hmem1)
          cases hjo : env.joinOutcome uname with
          | success =>
            dsimp only
            split
            · refine ⟨(hasLeftGroup_mem _ _).mpr (mem_saddNat _ hmem1), ?_⟩
              intro hco
              rw [Option.some.injEq] at hco
              exact absurd hco hgne
            · split
              · refine ⟨(hasLeftGroup_mem _ _).mpr (mem_saddNat _ hmem1), ?_⟩
                intro hco
                rw [Option.some.injEq] at hco
                exact absurd hco hgne
              · split
                · refine ⟨(hasLeftGroup_mem _ _).mpr (mem_saddNat _ hmem1), ?_⟩
                  intro hco
                  rw [Option.some.injEq] at hco
                  exact absurd hco hgne
                · split
                  · refine ⟨(hasLeftGroup_mem _ _).mpr hmem1, ?_⟩
                    intro hco
                    rw [Option.some.injEq] at hco
                    exact absurd hco hgne
                  · refine ⟨(hasLeftGroup_mem _ _).mpr (mem_saddNat _ hmem1), ?_⟩
                    intro hco
                    rw [Option.some.injEq] at hco
                    exact absurd hco hgne
          | alreadyParticipant =>
            refine ⟨(hasLeftGroup_mem _ _).mpr hmem1, ?_⟩
            intro hco
            rw [Option.some.injEq] at hco
            exact absurd hco hgne
          | floodWait w =>
            refine ⟨(hasLeftGroup_mem _ _).mpr hmem1, ?_⟩
            intro hco
            rw [Option.some.injEq] at hco
            exact absurd hco hgne
          | otherError =>
            refine ⟨(hasLeftGroup_mem _ _).mpr (mem_saddNat _ hmem1), ?_⟩
            intro hco
            rw [Option.some.injEq] at hco
            exact absurd hco hgne

/-- Run-level skip: starting from a store whose `leftGroups` holds `g`,
every log entry of the run that resolves to `g` attempts no join and
continues the run. -/
theorem processRun_left_skip (env : Env) (g : Nat) :
    ∀ (fuel i : Nat) (s : Store), hasLeftGroup s g = true →
      ∀ log ∈ (processRun env fuel i s).2, log.resolvedTo = some g →
        log.joinAttempted = false ∧ log.exit = .continueRun := by
  intro fuel
  induction fuel with
  | zero => intro i s _ log hlog; simp [processRun] at hlog
  | succ fuel ih =>
    intro i s hleft log hlog hres
    obtain ⟨hpres, hskip⟩ := processOneCandidate_left_skip env i s g hleft
    rcases hstep : processOneCandidate env i s with ⟨s', lg⟩
    rw [hstep] at hpres hskip
    rw [processRun, hstep] at hlog
    dsimp only at hpres hskip hlog
    cases hex : lg.exit with
    | continueRun =>
      rw [hex] at hlog
      dsimp only at hlog
      rcases List.mem_cons.mp hlog with rfl | htail
      · exact hskip hres
      · exact ih (i + 1) s' hpres log htail hres
    | emptyQueue =>
      rw [hex] at hlog
      dsimp only at hlog
      rcases List.mem_singleton.mp hlog with rfl
      exact hskip hres
    | floodAbort =>
      rw [hex] at hlog
      dsimp only at hlog
      rcases List.mem_singleton.mp hlog with rfl
      exact hskip hres

/-- C7: after `recordLeftGroup(g)`, the group is marked left, and in any
processing run starting from such a store every candidate resolving to
`g` is skipped before any join attempt, whatever the main queue and the
retry schedule hold. -/
theorem claim_C7_left_short_circuits (env : Env) (g : Nat) :
    (∀ s, hasLeftGroup (recordLeftGroup s g) g = true) ∧
    (∀ (fuel i : Nat) (s : Store), hasLeftGroup s g = true →
      ∀ log ∈ (processRun env fuel i s).2, log.resolvedTo = some g →
        log.joinAttempted = false ∧ log.exit = .continueRun) := by
  constructor
  · intro s
    rw [hasLeftGroup_mem, recordLeftGroup]
    exact self_mem_saddNat _ _
  · exact processRun_left_skip env g

/-- Witness for C7: a queued handle resolving to an already-left group
is skipped in a concrete two-iteration run. -/
theorem claim_C7_left_short_circuits_witness :
    hasLeftGroup (recordLeftGroup ⟨0, [], [], [], [], [], [], 0, 0, 0⟩ 5) 5 =
      true ∧
    ((⟨some "@z", some 5, false, false, false, .continueRun⟩ : StepLog).joinAttempted
        = false ∧
      (⟨some "@z", some 5, false, false, false, .continueRun⟩ : StepLog).exit =
        .continueRun) :=
  ⟨(claim_C7_left_short_circuits
      ⟨fun _ => some 5, fun _ => .success, fun _ => [],
       fun _ => "", fun _ => false, fun _ => 0⟩ 5).1
      ⟨0, [], [], [], [], [], [], 0, 0, 0⟩,
   (claim_C7_left_short_circuits
      ⟨fun _ => some 5, fun _ => .success, fun _ => [],
       fun _ => "", fun _ => false, fun _ => 0⟩ 5).2
      2 0 ⟨0, ["@z"], [], [], [], [], [5], 0, 0, 0⟩ (by decide)
      ⟨some "@z", some 5, false, false, false, .continueRun⟩ (by decide) rfl⟩

end GasGuardian
